import Mathlib

/-!
Verification of the monetary-rs repository specification.

The Rust sources under `src/` are shallowly embedded below:
* machine integers (`i128`, `i32`, `i64`) become unbounded `Int`; the 128-bit
  overflow of the unscaled value is a fatal error per the spec (§4.A) and the
  claims checked here stay far away from the overflow range;
* Rust `/` and `%` on signed integers truncate toward zero and are modeled with
  `Int.tdiv` / `Int.tmod`;
* a Rust panic is modeled as `none`;
* fallible Rust functions returning `Result` are modeled with `Except`.
-/

set_option maxRecDepth 8000

/-- Rounding modes, from `src/constants/mod.rs` (`enum RoundingMode`). -/
inductive RoundingMode where
  | up
  | down
  | ceiling
  | floor
  | halfUp
  | halfDown
  | halfEven
  | unnecessary
deriving DecidableEq, Repr

/-- Fixed-point decimal from `src/core/types.rs` (`struct BigDecimal`):
`unscaled_value : i128`, `scale : i32`, denoting `unscaled_value * 10 ^ (-scale)`. -/
structure BigDecimal where
  unscaledValue : Int
  scale : Int
deriving DecidableEq, Repr

/-- `BigDecimal::zero()`. -/
def BigDecimal.zero : BigDecimal := ⟨0, 0⟩

/-- `BigDecimal::one()`. -/
def BigDecimal.one : BigDecimal := ⟨1, 0⟩

/-- `BigDecimal::with_scale` from `src/core/types.rs` lines 66-157.
Equal target scale returns a clone; a larger target scale multiplies the
unscaled value by `10^(scale - self.scale)`; a smaller target scale divides by
`factor = 10^(self.scale - scale)` with the requested rounding mode.
`RoundingMode::Unnecessary` panics when the remainder is non-zero (`none`). -/
def BigDecimal.withScale (x : BigDecimal) (scale : Int) (mode : RoundingMode) :
    Option BigDecimal :=
  if scale = x.scale then some x
  else if x.scale < scale then
    some ⟨x.unscaledValue * 10 ^ (scale - x.scale).toNat, scale⟩
  else
    let factor : Int := 10 ^ (x.scale - scale).toNat
    match mode with
    | .halfEven =>
        let remainder := x.unscaledValue.tmod factor
        let half := factor.tdiv 2
        let quotient := x.unscaledValue.tdiv factor
        some ⟨if half < |remainder| ∨ (|remainder| = half ∧ quotient.tmod 2 ≠ 0) then
                quotient + (if 0 ≤ remainder then 1 else -1)
              else quotient, scale⟩
    | .halfUp =>
        let remainder := x.unscaledValue.tmod factor
        let half := factor.tdiv 2
        let quotient := x.unscaledValue.tdiv factor
        some ⟨if half ≤ |remainder| then
                quotient + (if 0 ≤ remainder then 1 else -1)
              else quotient, scale⟩
    | .halfDown =>
        let remainder := x.unscaledValue.tmod factor
        let half := factor.tdiv 2
        let quotient := x.unscaledValue.tdiv factor
        some ⟨if half < |remainder| then
                quotient + (if 0 ≤ remainder then 1 else -1)
              else quotient, scale⟩
    | .ceiling =>
        let quotient := x.unscaledValue.tdiv factor
        let remainder := x.unscaledValue.tmod factor
        some ⟨if 0 < remainder then quotient + 1 else quotient, scale⟩
    | .floor =>
        let quotient := x.unscaledValue.tdiv factor
        let remainder := x.unscaledValue.tmod factor
        some ⟨if remainder < 0 then quotient - 1 else quotient, scale⟩
    | .down => some ⟨x.unscaledValue.tdiv factor, scale⟩
    | .up =>
        let quotient := x.unscaledValue.tdiv factor
        let remainder := x.unscaledValue.tmod factor
        some ⟨if remainder ≠ 0 then
                quotient + (if 0 < remainder then 1 else -1)
              else quotient, scale⟩
    | .unnecessary =>
        if x.unscaledValue.tmod factor ≠ 0 then none
        else some ⟨x.unscaledValue.tdiv factor, scale⟩

/-- Modelled from the spec's rounding table (§4.A): the adjusted quotient, given
truncated quotient `q`, remainder `r` (sign preserved) and factor `f`, with
`half = f/2`; "q is odd" is rendered as `q.tmod 2 ≠ 0`. This definition follows
the spec's words and is compared against `BigDecimal.withScale`, which is
translated from the source. -/
def specRoundAdjust (mode : RoundingMode) (q r f : Int) : Option Int :=
  let half := f.tdiv 2
  match mode with
  | .up => some (if r ≠ 0 then q + r.sign else q)
  | .down => some q
  | .ceiling => some (if 0 < r then q + 1 else q)
  | .floor => some (if r < 0 then q - 1 else q)
  | .halfUp => some (if half ≤ |r| then q + r.sign else q)
  | .halfDown => some (if half < |r| then q + r.sign else q)
  | .halfEven => some (if half < |r| ∨ (|r| = half ∧ q.tmod 2 ≠ 0) then q + r.sign else q)
  | .unnecessary => if r ≠ 0 then none else some q

theorem sign_ite_eq_sign (r : Int) (h : r ≠ 0) :
    (if 0 ≤ r then (1 : Int) else -1) = r.sign := by
  rcases lt_trichotomy r 0 with hlt | heq | hgt
  · rw [if_neg (by omega), Int.sign_eq_neg_one_iff_neg.mpr hlt]
  · exact absurd heq h
  · rw [if_pos (by omega), Int.sign_eq_one_iff_pos.mpr hgt]

theorem sign_ite_pos_eq_sign (r : Int) (h : r ≠ 0) :
    (if 0 < r then (1 : Int) else -1) = r.sign := by
  rcases lt_trichotomy r 0 with hlt | heq | hgt
  · rw [if_neg (by omega), Int.sign_eq_neg_one_iff_neg.mpr hlt]
  · exact absurd heq h
  · rw [if_pos hgt, Int.sign_eq_one_iff_pos.mpr hgt]

theorem five_le_half_pow {k : Nat} (hk : 1 ≤ k) : (5 : Int) ≤ ((10 : Int) ^ k).tdiv 2 := by
  obtain ⟨m, rfl⟩ := Nat.exists_eq_add_of_le hk
  have h10 : (10 : Int) ^ (1 + m) = 2 * (5 * 10 ^ m) := by ring
  rw [h10, Int.mul_tdiv_cancel_left _ (by norm_num)]
  have : (1 : Int) ≤ 10 ^ m := one_le_pow₀ (by norm_num)
  nlinarith

/-- C1: for a target scale `t < s`, `with_scale` splits the unscaled value by
`f = 10^(s-t)` into a quotient truncated toward zero and a sign-preserving
remainder, adjusts the quotient exactly as the spec's rounding table says
(`Unnecessary` failing on a non-zero remainder), and the concrete 12.355 /
-12.355 rescaling examples come out as the claim states. -/
theorem c1_with_scale_matches_spec_table :
    (∀ (u s t : Int) (mode : RoundingMode) (f q r : Int), t < s →
      f = 10 ^ (s - t).toNat → q = u.tdiv f → r = u.tmod f →
      BigDecimal.withScale ⟨u, s⟩ t mode =
        (specRoundAdjust mode q r f).map (fun q' => ⟨q', t⟩)) ∧
    BigDecimal.withScale ⟨12355, 3⟩ 2 .halfEven = some ⟨1236, 2⟩ ∧
    BigDecimal.withScale ⟨12355, 3⟩ 2 .ceiling = some ⟨1236, 2⟩ ∧
    BigDecimal.withScale ⟨12355, 3⟩ 2 .halfDown = some ⟨1235, 2⟩ ∧
    BigDecimal.withScale ⟨12355, 3⟩ 2 .floor = some ⟨1235, 2⟩ ∧
    BigDecimal.withScale ⟨-12355, 3⟩ 2 .halfEven = some ⟨-1236, 2⟩ ∧
    BigDecimal.withScale ⟨-12355, 3⟩ 2 .floor = some ⟨-1236, 2⟩ ∧
    BigDecimal.withScale ⟨-12355, 3⟩ 2 .ceiling = some ⟨-1235, 2⟩ := by
  refine ⟨?_, by decide, by decide, by decide, by decide, by decide, by decide, by decide⟩
  intro u s t mode f q r hts hf hq hr
  subst hf; subst hq; subst hr
  have hk : 1 ≤ (s - t).toNat := by omega
  have hhalf := five_le_half_pow (k := (s - t).toNat) hk
  simp only [BigDecimal.withScale, specRoundAdjust]
  rw [if_neg (by omega : ¬ t = s), if_neg (by omega : ¬ s < t)]
  cases mode <;>
    simp only [Option.map_some', Option.map_none', Option.map] <;>
    try rfl
  case up =>
    by_cases h0 : u.tmod (10 ^ (s - t).toNat) = 0
    · simp [h0]
    · rw [if_pos h0, if_pos h0, sign_ite_pos_eq_sign _ h0]
  case halfUp =>
    by_cases hc : (10 ^ (s - t).toNat : Int).tdiv 2 ≤ |u.tmod (10 ^ (s - t).toNat)|
    · have h0 : u.tmod (10 ^ (s - t).toNat) ≠ 0 := by
        intro h; rw [h] at hc; simp at hc; omega
      rw [if_pos hc, if_pos hc, sign_ite_eq_sign _ h0]
    · rw [if_neg hc, if_neg hc]
  case halfDown =>
    by_cases hc : (10 ^ (s - t).toNat : Int).tdiv 2 < |u.tmod (10 ^ (s - t).toNat)|
    · have h0 : u.tmod (10 ^ (s - t).toNat) ≠ 0 := by
        intro h; rw [h] at hc; simp at hc; omega
      rw [if_pos hc, if_pos hc, sign_ite_eq_sign _ h0]
    · rw [if_neg hc, if_neg hc]
  case halfEven =>
    by_cases hc : (10 ^ (s - t).toNat : Int).tdiv 2 < |u.tmod (10 ^ (s - t).toNat)| ∨
        (|u.tmod (10 ^ (s - t).toNat)| = (10 ^ (s - t).toNat : Int).tdiv 2 ∧
          (u.tdiv (10 ^ (s - t).toNat)).tmod 2 ≠ 0)
    · have h0 : u.tmod (10 ^ (s - t).toNat) ≠ 0 := by
        intro h; rw [h] at hc; simp at hc; omega
      rw [if_pos hc, if_pos hc, sign_ite_eq_sign _ h0]
    · rw [if_neg hc, if_neg hc]
  case unnecessary =>
    by_cases h0 : u.tmod (10 ^ (s - t).toNat) = 0
    · simp [h0]
    · simp [h0]

/-- Witness for C1: the general part applied at unscaled 12355, scale 3,
target scale 2, HalfEven. -/
theorem c1_with_scale_matches_spec_table_witness :
    BigDecimal.withScale ⟨12355, 3⟩ 2 .halfEven =
      (specRoundAdjust .halfEven 1235 5 10).map (fun q' => ⟨q', 2⟩) :=
  c1_with_scale_matches_spec_table.1 12355 3 2 .halfEven 10 1235 5 (by decide)
    (by decide) (by decide) (by decide)

/-- Rescaling to a target scale at or above the current scale takes the
clone/multiply branches of `with_scale`: it never rounds and never panics. -/
theorem BigDecimal.withScale_of_le (x : BigDecimal) (s : Int) (mode : RoundingMode)
    (h : x.scale ≤ s) :
    x.withScale s mode = some ⟨x.unscaledValue * 10 ^ (s - x.scale).toNat, s⟩ := by
  unfold BigDecimal.withScale
  by_cases h1 : s = x.scale
  · subst h1; simp
  · rw [if_neg h1, if_pos (by omega)]

/-- `BigDecimal::add` (types.rs 159-169): rescale both operands to the max
scale, then add unscaled values. Both `with_scale` calls rescale upward, so the
`none` (panic) arm is unreachable by `BigDecimal.withScale_of_le`. -/
def BigDecimal.add (x y : BigDecimal) (mode : RoundingMode) : BigDecimal :=
  match x.withScale (max x.scale y.scale) mode, y.withScale (max x.scale y.scale) mode with
  | some xa, some ya => ⟨xa.unscaledValue + ya.unscaledValue, max x.scale y.scale⟩
  | _, _ => BigDecimal.zero

/-- `BigDecimal::subtract` (types.rs 171-181), same shape as `add`. -/
def BigDecimal.subtract (x y : BigDecimal) (mode : RoundingMode) : BigDecimal :=
  match x.withScale (max x.scale y.scale) mode, y.withScale (max x.scale y.scale) mode with
  | some xa, some ya => ⟨xa.unscaledValue - ya.unscaledValue, max x.scale y.scale⟩
  | _, _ => BigDecimal.zero

/-- `BigDecimal::multiply` (types.rs 183-193): unscaled product at scale
`s1 + s2`, then `with_scale` to the target scale (which may round or panic). -/
def BigDecimal.multiply (x y : BigDecimal) (mode : RoundingMode) (targetScale : Int) :
    Option BigDecimal :=
  BigDecimal.withScale ⟨x.unscaledValue * y.unscaledValue, x.scale + y.scale⟩ targetScale mode

/-- `BigDecimal::divide` (types.rs 195-211). Division by zero is the reported
error; the final `with_scale` may panic (`none`) only under `Unnecessary`.
The cast `(target_scale + 10) as u32` is modeled with `.toNat`; claims only
use a non-negative target scale, where the two agree. -/
def BigDecimal.divide (x y : BigDecimal) (mode : RoundingMode) (targetScale : Int) :
    Option (Except String BigDecimal) :=
  if y.unscaledValue = 0 then some (Except.error "Division by zero")
  else
    let scaleFactor : Int := 10 ^ (targetScale + 10).toNat
    let quotient := (x.unscaledValue * scaleFactor).tdiv y.unscaledValue
    (BigDecimal.withScale ⟨quotient, x.scale - y.scale + targetScale + 10⟩ targetScale mode).map
      Except.ok

/-- `impl Add for BigDecimal` (core/mod.rs 290-296): `add` with HalfEven. -/
def BigDecimal.addOp (x y : BigDecimal) : BigDecimal := x.add y .halfEven

/-- `impl Sub for BigDecimal` (core/mod.rs 298-304): `subtract` with HalfEven. -/
def BigDecimal.subOp (x y : BigDecimal) : BigDecimal := x.subtract y .halfEven

/-- `impl Mul for BigDecimal` (core/mod.rs 306-313): target scale
`max (s1 + s2) 8`, HalfEven; the rescale is upward, so the panic arm is
unreachable by `BigDecimal.withScale_of_le`. -/
def BigDecimal.mulOp (x y : BigDecimal) : BigDecimal :=
  match x.multiply y .halfEven (max (x.scale + y.scale) 8) with
  | some v => v
  | none => BigDecimal.zero

/-- `impl Div for BigDecimal` (core/mod.rs 315-321): `divide` with HalfEven,
target scale 8, and `unwrap_or_else(|_| zero)` mapping the division-by-zero
error to zero. The `none` (panic) arm is unreachable under HalfEven. -/
def BigDecimal.divOp (x y : BigDecimal) : BigDecimal :=
  match x.divide y .halfEven 8 with
  | some (Except.ok v) => v
  | some (Except.error _) => BigDecimal.zero
  | none => BigDecimal.zero

/-- The rational value denoted by a decimal: `unscaled * 10 ^ (-scale)`. -/
def BigDecimal.toRat (x : BigDecimal) : ℚ := (x.unscaledValue : ℚ) * (10 : ℚ) ^ (-x.scale)

/-- `impl PartialEq for BigDecimal` (types.rs 250-259): compare unscaled values
after rescaling both operands (upward) to the common max scale with HalfEven. -/
def BigDecimal.beq (x y : BigDecimal) : Bool :=
  match x.withScale (max x.scale y.scale) .halfEven, y.withScale (max x.scale y.scale) .halfEven with
  | some xa, some ya => xa.unscaledValue == ya.unscaledValue
  | _, _ => false

theorem BigDecimal.toRat_shift (x : BigDecimal) (s : Int) (h : x.scale ≤ s) :
    BigDecimal.toRat ⟨x.unscaledValue * 10 ^ (s - x.scale).toNat, s⟩ = x.toRat := by
  unfold BigDecimal.toRat
  have h10 : (10 : ℚ) ≠ 0 := by norm_num
  have hk : (((s - x.scale).toNat : ℤ)) = s - x.scale := Int.toNat_of_nonneg (by omega)
  push_cast
  rw [← zpow_natCast (10 : ℚ) (s - x.scale).toNat, hk, mul_assoc, ← zpow_add₀ h10]
  rw [show s - x.scale + -s = -x.scale by ring]

theorem BigDecimal.add_toRat (x y : BigDecimal) (mode : RoundingMode) :
    (x.add y mode).toRat = x.toRat + y.toRat := by
  unfold BigDecimal.add
  rw [BigDecimal.withScale_of_le x _ mode (le_max_left _ _),
    BigDecimal.withScale_of_le y _ mode (le_max_right _ _)]
  simp only
  rw [← BigDecimal.toRat_shift x (max x.scale y.scale) (le_max_left _ _),
    ← BigDecimal.toRat_shift y (max x.scale y.scale) (le_max_right _ _)]
  unfold BigDecimal.toRat
  push_cast
  ring

theorem BigDecimal.subtract_toRat (x y : BigDecimal) (mode : RoundingMode) :
    (x.subtract y mode).toRat = x.toRat - y.toRat := by
  unfold BigDecimal.subtract
  rw [BigDecimal.withScale_of_le x _ mode (le_max_left _ _),
    BigDecimal.withScale_of_le y _ mode (le_max_right _ _)]
  simp only
  rw [← BigDecimal.toRat_shift x (max x.scale y.scale) (le_max_left _ _),
    ← BigDecimal.toRat_shift y (max x.scale y.scale) (le_max_right _ _)]
  unfold BigDecimal.toRat
  push_cast
  ring

theorem BigDecimal.beq_eq_true_iff (x y : BigDecimal) :
    x.beq y = true ↔ x.toRat = y.toRat := by
  unfold BigDecimal.beq
  rw [BigDecimal.withScale_of_le x _ _ (le_max_left _ _),
    BigDecimal.withScale_of_le y _ _ (le_max_right _ _)]
  simp only [beq_iff_eq]
  have hA := BigDecimal.toRat_shift x (max x.scale y.scale) (le_max_left _ _)
  have hB := BigDecimal.toRat_shift y (max x.scale y.scale) (le_max_right _ _)
  constructor
  · intro h
    rw [← hA, ← hB, h]
  · intro h
    have h2 : BigDecimal.toRat ⟨x.unscaledValue * 10 ^ (max x.scale y.scale - x.scale).toNat,
        max x.scale y.scale⟩ =
        BigDecimal.toRat ⟨y.unscaledValue * 10 ^ (max x.scale y.scale - y.scale).toNat,
        max x.scale y.scale⟩ := by rw [hA, hB, h]
    unfold BigDecimal.toRat at h2
    have hne : (10 : ℚ) ^ (-(max x.scale y.scale)) ≠ 0 := zpow_ne_zero _ (by norm_num)
    have h3 := mul_right_cancel₀ hne h2
    exact_mod_cast h3

/-- `struct CurrencyUnit` from `src/core/currency_unit.rs`. -/
structure CurrencyUnit where
  code : String
  numericCode : Int
  defaultFractionDigits : Int
  displayName : String
deriving DecidableEq, Repr

/-- `struct Currency` from `src/core/currency.rs`: a `CurrencyUnit` plus a
display symbol. Derived `PartialEq` compares the full descriptor. -/
structure Currency where
  unit : CurrencyUnit
  symbol : String
deriving DecidableEq, Repr

/-- `Currency::numeric_code`. -/
def Currency.numericCode (c : Currency) : Int := c.unit.numericCode

/-- `Currency::usd()` (currency.rs 66-69). -/
def Currency.usd : Currency := ⟨⟨"USD", 840, 2, "US Dollar"⟩, "$"⟩

/-- `Currency::eur()` (currency.rs 71-74). -/
def Currency.eur : Currency := ⟨⟨"EUR", 978, 2, "Euro"⟩, "€"⟩

/-- `Currency::gbp()` (currency.rs 76-79). -/
def Currency.gbp : Currency := ⟨⟨"GBP", 826, 2, "British Pound Sterling"⟩, "£"⟩

/-- `struct MonetaryContext` from `src/core/mod.rs` 333-338. -/
structure MonetaryContext where
  precision : Nat
  maxScale : Int
  roundingMode : RoundingMode
deriving DecidableEq, Repr

/-- `impl Default for MonetaryContext` (mod.rs 387-395): (19, 6, HalfEven). -/
def MonetaryContext.default : MonetaryContext := ⟨19, 6, .halfEven⟩

/-- The `currency_precision` builder preset (mod.rs 441-447): (19, 2, HalfEven). -/
def MonetaryContext.currencyPrecision : MonetaryContext := ⟨19, 2, .halfEven⟩

/-- `MonetaryContext::round_bigdecimal` (mod.rs 369-371):
`with_scale(max_scale, rounding_mode)`; `none` models the Unnecessary panic. -/
def MonetaryContext.roundBigdecimal (ctx : MonetaryContext) (v : BigDecimal) :
    Option BigDecimal :=
  v.withScale ctx.maxScale ctx.roundingMode

/-- `enum MoneyError` from `src/core/mod.rs` 21-27. The `f64` payload of
`InvalidExchangeRate` is modeled as the rational value the float denotes. -/
inductive MoneyError where
  | conversionError (msg : String)
  | currencyMismatch (a b : Currency)
  | invalidExchangeRate (rate : ℚ)
  | precisionLoss
deriving DecidableEq, Repr

/-- The operations a backing type supplies, from the `Monetizable` trait
(`src/core/mod.rs` 43-79) plus the type-dispatched
`MonetaryContext::apply_precision` (mod.rs 373-385): the trait's arithmetic
comes from the `Add`/`Sub`/`Mul`/`Div` impls of the backing type, and
`applyPrecision` records which arm of the `TypeId` dispatch the type hits
(`none` models a panic inside rounding). -/
structure MonetizableOps (T : Type) where
  zero : T
  add : T → T → T
  sub : T → T → T
  mul : T → T → T
  div : T → T → T
  applyPrecision : MonetaryContext → T → Option T

/-- The `Monetizable` operations for `BigDecimal` (mod.rs 207-321):
arithmetic through the operator impls; `apply_precision` hits the
`TypeId::of::<BigDecimal>` arm, i.e. `round_bigdecimal`. -/
def bigDecimalOps : MonetizableOps BigDecimal :=
  { zero := BigDecimal.zero
    add := BigDecimal.addOp
    sub := BigDecimal.subOp
    mul := BigDecimal.mulOp
    div := BigDecimal.divOp
    applyPrecision := fun ctx v => ctx.roundBigdecimal v }

/-- The `Monetizable` operations for `f64` (mod.rs 140-196). An `f64` value is
modeled as the rational number it denotes; every f64 operation that the
theorems below evaluate through this record is applied only at arguments where
IEEE double arithmetic is exact (multiplication by 1.0, addition of 0.0), so
the rational model agrees with the source there. `apply_precision` hits the
catch-all arm (`_ => Ok(value)`): no rounding for float backings. -/
def floatOps : MonetizableOps ℚ :=
  { zero := 0
    add := fun a b => a + b
    sub := fun a b => a - b
    mul := fun a b => a * b
    div := fun a b => a / b
    applyPrecision := fun _ v => some v }

/-- `struct Monetary<T>` from `src/core/mod.rs` 462-467. -/
structure Monetary (T : Type) where
  amount : T
  currency : Currency
  context : MonetaryContext
deriving DecidableEq, Repr

/-- `Monetary::new` (mod.rs 470-476): default context. -/
def Monetary.new {T : Type} (amount : T) (currency : Currency) : Monetary T :=
  ⟨amount, currency, .default⟩

/-- `Monetary::new_with_context` (mod.rs 478-480). -/
def Monetary.newWithContext {T : Type} (amount : T) (currency : Currency)
    (context : MonetaryContext) : Monetary T :=
  ⟨amount, currency, context⟩

/-- `Monetary::zero` (mod.rs 482-484): `T::zero()` with the default context. -/
def Monetary.zeroM {T : Type} (ops : MonetizableOps T) (currency : Currency) : Monetary T :=
  Monetary.new ops.zero currency

/-- `Monetary::safe_add` (mod.rs 581-590): currency-mismatch guard (full
descriptor equality), then the amounts added in `T`, keeping the left
operand's currency and context. -/
def Monetary.safeAdd {T : Type} (ops : MonetizableOps T) (x y : Monetary T) :
    Except MoneyError (Monetary T) :=
  if x.currency ≠ y.currency then
    Except.error (.currencyMismatch x.currency y.currency)
  else
    Except.ok ⟨ops.add x.amount y.amount, x.currency, x.context⟩

/-- `Monetary::safe_subtract` (mod.rs 592-601). -/
def Monetary.safeSubtract {T : Type} (ops : MonetizableOps T) (x y : Monetary T) :
    Except MoneyError (Monetary T) :=
  if x.currency ≠ y.currency then
    Except.error (.currencyMismatch x.currency y.currency)
  else
    Except.ok ⟨ops.sub x.amount y.amount, x.currency, x.context⟩

/-- `Monetary::multiply_by` (mod.rs 604-610). -/
def Monetary.multiplyBy {T : Type} (ops : MonetizableOps T) (x : Monetary T) (scalar : T) :
    Monetary T :=
  ⟨ops.mul x.amount scalar, x.currency, x.context⟩

/-- `Monetary::divide_by` (mod.rs 612-618): the amount divided by the scalar
via `T`'s `Div`, currency and context untouched. -/
def Monetary.divideBy {T : Type} (ops : MonetizableOps T) (x : Monetary T) (scalar : T) :
    Monetary T :=
  ⟨ops.div x.amount scalar, x.currency, x.context⟩

/-- `Monetary::apply_context` (mod.rs 522-525). `apply_precision` never
returns `Err` in the source (both arms are `Ok`), so only its possible panic
(`none`) remains observable. -/
def Monetary.applyContext {T : Type} (ops : MonetizableOps T) (x : Monetary T) :
    Option (Monetary T) :=
  (ops.applyPrecision x.context x.amount).map (fun a => ⟨a, x.currency, x.context⟩)

/-- `Monetary::apply_percentage` (mod.rs 621-626). `conv` is the trait method
`T::try_from_f64`; its argument models the f64 expression
`1.0 + percentage / 100.0` (exact at the points used in the theorems below). -/
def Monetary.applyPercentage {T : Type} (ops : MonetizableOps T)
    (conv : ℚ → Except MoneyError T) (x : Monetary T) (percentage : ℚ) :
    Option (Except MoneyError (Monetary T)) :=
  match conv (1 + percentage / 100) with
  | Except.error e => some (Except.error e)
  | Except.ok multiplier =>
      (Monetary.applyContext ops (Monetary.multiplyBy ops x multiplier)).map Except.ok

/-- `Monetary::percentage_of` (mod.rs 628-633): multiplier `percentage / 100.0`. -/
def Monetary.percentageOf {T : Type} (ops : MonetizableOps T)
    (conv : ℚ → Except MoneyError T) (x : Monetary T) (percentage : ℚ) :
    Option (Except MoneyError (Monetary T)) :=
  match conv (percentage / 100) with
  | Except.error e => some (Except.error e)
  | Except.ok multiplier =>
      (Monetary.applyContext ops (Monetary.multiplyBy ops x multiplier)).map Except.ok

/-- `enum ExchangeError` from `src/errors/mod.rs` 218-225. -/
inductive ExchangeError where
  | currencyMismatch
  | noRateFound
  | expiredRate
  | invalidRate
  | providerError
  | conversionError
deriving DecidableEq, Repr

/-- `struct CurrencyPair` from `src/exchange/base_exchange.rs` 12-16. -/
structure CurrencyPair where
  baseCode : Int
  targetCode : Int
deriving DecidableEq, Repr

/-- `CurrencyPair::new` (base_exchange.rs 18-24). -/
def CurrencyPair.new (base target : Currency) : CurrencyPair :=
  ⟨base.numericCode, target.numericCode⟩

/-- `struct ExchangeRate<T>` from `src/exchange/base_exchange.rs` 35-43.
`Instant` and `Duration` are modeled as a `Nat` tick count on the monotonic
clock, with the current instant passed explicitly to time-dependent
operations. -/
structure ExchangeRate (T : Type) where
  baseCurrency : Currency
  targetCurrency : Currency
  factor : T
  timestamp : Nat
  ttl : Option Nat
  context : MonetaryContext
deriving DecidableEq, Repr

/-- `ExchangeRate::new` (base_exchange.rs 46-59): timestamp `Instant::now()`
passed explicitly, no TTL, default context. -/
def ExchangeRate.new {T : Type} (base target : Currency) (factor : T) (now : Nat) :
    ExchangeRate T :=
  ⟨base, target, factor, now, none, .default⟩

/-- `ExchangeRate::with_ttl` (base_exchange.rs 61-64). -/
def ExchangeRate.withTtl {T : Type} (r : ExchangeRate T) (ttl : Nat) : ExchangeRate T :=
  { r with ttl := some ttl }

/-- `ExchangeRate::is_expired` (base_exchange.rs 92-98): false without a TTL,
otherwise `timestamp.elapsed() > ttl` with `elapsed = now - timestamp`
(saturating, as on a monotonic clock). -/
def ExchangeRate.isExpired {T : Type} (r : ExchangeRate T) (now : Nat) : Bool :=
  match r.ttl with
  | some ttl => decide (ttl < now - r.timestamp)
  | none => false

/-- `ExchangeRate::apply` (base_exchange.rs 101-114): currency guard, expiry
guard, then `amount * factor` wrapped by `Monetary::new` — which installs the
default context. -/
def ExchangeRate.apply {T : Type} (ops : MonetizableOps T) (r : ExchangeRate T) (now : Nat)
    (m : Monetary T) : Except ExchangeError (Monetary T) :=
  if m.currency ≠ r.baseCurrency then
    Except.error .currencyMismatch
  else if r.isExpired now then
    Except.error .expiredRate
  else
    Except.ok (Monetary.new (ops.mul m.amount r.factor) r.targetCurrency)

/-- `HashMap::get` on the rate cache, modeled over an association list. -/
def lookupRate {T : Type} : List (CurrencyPair × ExchangeRate T) → CurrencyPair →
    Option (ExchangeRate T)
  | [], _ => none
  | e :: rest, p => if e.1 = p then some e.2 else lookupRate rest p

/-- `HashMap::insert` on the rate cache: replaces an existing entry for the
key, else appends. -/
def insertRate {T : Type} : List (CurrencyPair × ExchangeRate T) → CurrencyPair →
    ExchangeRate T → List (CurrencyPair × ExchangeRate T)
  | [], p, r => [(p, r)]
  | e :: rest, p, r => if e.1 = p then (p, r) :: rest else e :: insertRate rest p r

/-- `struct CurrencyConversion<T>` (base_exchange.rs 189-193): a provider is
its `get_exchange_rate` lookup function; the `RwLock<HashMap<..>>` cache is an
association list threaded explicitly through `convert`. -/
structure CurrencyConversion (T : Type) where
  providers : List (Currency → Currency → Option (ExchangeRate T))
  rateCache : List (CurrencyPair × ExchangeRate T)
  defaultContext : MonetaryContext

/-- The provider loop of `CurrencyConversion::convert` (base_exchange.rs
244-259): try providers in order; on the first returned rate, apply it and
cache the rate (keyed by the pair) exactly when application succeeded; with no
provider rate left, report `NoRateFound`. Returns the result paired with the
updated cache. -/
def tryProviders {T : Type} (ops : MonetizableOps T) :
    List (Currency → Currency → Option (ExchangeRate T)) → Monetary T → Currency →
    CurrencyPair → Nat → List (CurrencyPair × ExchangeRate T) →
    Except ExchangeError (Monetary T) × List (CurrencyPair × ExchangeRate T)
  | [], _, _, _, _, cache => (Except.error .noRateFound, cache)
  | prov :: rest, m, target, pair, now, cache =>
      match prov m.currency target with
      | some rate =>
          (rate.apply ops now m,
            match rate.apply ops now m with
            | Except.ok _ => insertRate cache pair rate
            | Except.error _ => cache)
      | none => tryProviders ops rest m target pair now cache

/-- `CurrencyConversion::convert` (base_exchange.rs 221-260): fast path on
equal numeric codes, then the cache (a hit is used only while unexpired), then
the provider loop. Returns the result paired with the updated cache. -/
def CurrencyConversion.convert {T : Type} (ops : MonetizableOps T)
    (svc : CurrencyConversion T) (m : Monetary T) (target : Currency) (now : Nat) :
    Except ExchangeError (Monetary T) × List (CurrencyPair × ExchangeRate T) :=
  if m.currency.numericCode = target.numericCode then
    (Except.ok m, svc.rateCache)
  else
    match lookupRate svc.rateCache (CurrencyPair.new m.currency target) with
    | some rate =>
        if ¬ rate.isExpired now then
          (rate.apply ops now m, svc.rateCache)
        else
          tryProviders ops svc.providers m target (CurrencyPair.new m.currency target) now
            svc.rateCache
    | none =>
        tryProviders ops svc.providers m target (CurrencyPair.new m.currency target) now
          svc.rateCache

/-- The first rate any provider in the chain returns for `(base, target)` —
the spec-side description of provider priority. -/
def firstProviderRate {T : Type} :
    List (Currency → Currency → Option (ExchangeRate T)) → Currency → Currency →
    Option (ExchangeRate T)
  | [], _, _ => none
  | prov :: rest, base, target =>
      match prov base target with
      | some rate => some rate
      | none => firstProviderRate rest base target

/-- The slow path of `CachedExchangeRateProvider::get_exchange_rate`
(cached_exchange.rs 57-72): ask the upstream provider; on a hit, insert a
clone with the cache's default TTL (`with_ttl(self.default_ttl)`), evict
expired entries when the new length is a multiple of 100, and return the
upstream rate; on a miss return `none` without touching the cache. -/
def cachedSlowPath {T : Type} (defaultTtl : Nat)
    (upstream : Currency → Currency → Option (ExchangeRate T))
    (base target : Currency) (now : Nat)
    (cache : List (CurrencyPair × ExchangeRate T)) :
    Option (ExchangeRate T) × List (CurrencyPair × ExchangeRate T) :=
  match upstream base target with
  | some rate =>
      let cache1 := insertRate cache (CurrencyPair.new base target) (rate.withTtl defaultTtl)
      let cache2 :=
        if cache1.length % 100 = 0 then cache1.filter (fun e => ! e.2.isExpired now)
        else cache1
      (some rate, cache2)
  | none => (none, cache)

/-- `CachedExchangeRateProvider::get_exchange_rate` (cached_exchange.rs
39-74): fast read path returning an unexpired cached entry, else the slow
path. The `RwLock<HashMap<..>>` cache is threaded explicitly. -/
def cachedGetExchangeRate {T : Type} (defaultTtl : Nat)
    (upstream : Currency → Currency → Option (ExchangeRate T))
    (base target : Currency) (now : Nat)
    (cache : List (CurrencyPair × ExchangeRate T)) :
    Option (ExchangeRate T) × List (CurrencyPair × ExchangeRate T) :=
  match lookupRate cache (CurrencyPair.new base target) with
  | some rate =>
      if ¬ rate.isExpired now then (some rate, cache)
      else cachedSlowPath defaultTtl upstream base target now cache
  | none => cachedSlowPath defaultTtl upstream base target now cache

/-- The cache states a caching provider can reach: initially empty
(`CachedExchangeRateProvider::new`), then whatever `get_exchange_rate` leaves
behind, for any query, time, and upstream behavior. -/
inductive CachedReachable {T : Type} (defaultTtl : Nat) :
    List (CurrencyPair × ExchangeRate T) → Prop where
  | init : CachedReachable defaultTtl []
  | step (cache : List (CurrencyPair × ExchangeRate T))
      (upstream : Currency → Currency → Option (ExchangeRate T))
      (base target : Currency) (now : Nat) :
      CachedReachable defaultTtl cache →
      CachedReachable defaultTtl
        (cachedGetExchangeRate defaultTtl upstream base target now cache).2

theorem mem_insertRate {T : Type} (cache : List (CurrencyPair × ExchangeRate T))
    (p : CurrencyPair) (r : ExchangeRate T) (e : CurrencyPair × ExchangeRate T)
    (he : e ∈ insertRate cache p r) : e = (p, r) ∨ e ∈ cache := by
  induction cache with
  | nil => simpa [insertRate] using he
  | cons hd tl ih =>
      unfold insertRate at he
      by_cases h1 : hd.1 = p
      · rw [if_pos h1] at he
        rcases List.mem_cons.mp he with h | h
        · exact Or.inl h
        · exact Or.inr (List.mem_cons_of_mem _ h)
      · rw [if_neg h1] at he
        rcases List.mem_cons.mp he with h | h
        · exact Or.inr (h ▸ List.mem_cons_self _ _)
        · rcases ih h with h2 | h2
          · exact Or.inl h2
          · exact Or.inr (List.mem_cons_of_mem _ h2)

theorem mem_of_mem_slow_path {T : Type} (defaultTtl : Nat)
    (upstream : Currency → Currency → Option (ExchangeRate T))
    (base target : Currency) (now : Nat)
    (cache : List (CurrencyPair × ExchangeRate T))
    (e : CurrencyPair × ExchangeRate T)
    (he : e ∈ (cachedSlowPath defaultTtl upstream base target now cache).2) :
    e.2.ttl = some defaultTtl ∨ e ∈ cache := by
  unfold cachedSlowPath at he
  cases hu : upstream base target with
  | none => rw [hu] at he; exact Or.inr he
  | some rate =>
      rw [hu] at he
      simp only at he
      have he1 : e ∈ insertRate cache (CurrencyPair.new base target) (rate.withTtl defaultTtl) := by
        by_cases hlen :
            (insertRate cache (CurrencyPair.new base target) (rate.withTtl defaultTtl)).length
              % 100 = 0
        · rw [if_pos hlen] at he
          exact (List.mem_filter.mp he).1
        · rwa [if_neg hlen] at he
      rcases mem_insertRate _ _ _ _ he1 with h | h
      · left; rw [h]; rfl
      · exact Or.inr h

/-- C7: in every reachable cache state of the caching provider, each cached
rate's TTL is the provider's default TTL (upstream TTLs are overwritten by
`with_ttl` at insertion); and when there is no fresh cached entry and the
upstream lookup misses, the provider returns `none` and the cache is
unchanged. -/
theorem c7_cached_provider_ttl_invariant :
    (∀ (T : Type) (defaultTtl : Nat) (cache : List (CurrencyPair × ExchangeRate T)),
      CachedReachable defaultTtl cache → ∀ e ∈ cache, e.2.ttl = some defaultTtl) ∧
    (∀ (T : Type) (defaultTtl : Nat)
      (upstream : Currency → Currency → Option (ExchangeRate T))
      (base target : Currency) (now : Nat)
      (cache : List (CurrencyPair × ExchangeRate T)),
      (∀ r, lookupRate cache (CurrencyPair.new base target) = some r →
        r.isExpired now = true) →
      upstream base target = none →
      cachedGetExchangeRate defaultTtl upstream base target now cache = (none, cache)) := by
  constructor
  · intro T defaultTtl cache h
    induction h with
    | init => intro e he; cases he
    | step cache upstream base target now _ ih =>
        intro e he
        unfold cachedGetExchangeRate at he
        cases hl : lookupRate cache (CurrencyPair.new base target) with
        | some rate =>
            simp only [hl] at he
            by_cases hexp : rate.isExpired now = true
            · rw [if_neg (by simp [hexp])] at he
              rcases mem_of_mem_slow_path _ _ _ _ _ _ _ he with h | h
              · exact h
              · exact ih e h
            · rw [if_pos (by simp [hexp])] at he
              exact ih e he
        | none =>
            simp only [hl] at he
            rcases mem_of_mem_slow_path _ _ _ _ _ _ _ he with h | h
            · exact h
            · exact ih e h
  · intro T defaultTtl upstream base target now cache hmiss hup
    unfold cachedGetExchangeRate
    cases hl : lookupRate cache (CurrencyPair.new base target) with
    | some rate =>
        have hexp := hmiss rate hl
        simp only [hl]
        rw [if_neg (by simp [hexp])]
        simp [cachedSlowPath, hup]
    | none =>
        simp only [hl]
        simp [cachedSlowPath, hup]

/-- Witness for C7: the miss branch applied to an empty cache and an upstream
with no rates. -/
theorem c7_cached_provider_ttl_invariant_witness :
    cachedGetExchangeRate (T := BigDecimal) 50 (fun _ _ => none) Currency.usd Currency.eur 0 []
      = (none, []) :=
  c7_cached_provider_ttl_invariant.2 BigDecimal 50 (fun _ _ => none) Currency.usd Currency.eur
    0 [] (fun r hr => by simp [lookupRate] at hr) rfl

/-- C2 (amended): `apply` fails with `CurrencyMismatch` when the amount's
currency differs from the rate's base currency, else with `ExpiredRate` when
the rate is expired; otherwise it returns the amount multiplied by the factor
in `T` with the rate's target currency — carrying the **default** monetary
context installed by `Monetary::new`, not the input's context. `is_expired`
is false whenever no TTL is set. -/
theorem c2_exchange_rate_apply :
    (∀ (T : Type) (ops : MonetizableOps T) (r : ExchangeRate T) (m : Monetary T) (now : Nat),
      (m.currency ≠ r.baseCurrency →
        r.apply ops now m = Except.error .currencyMismatch) ∧
      (m.currency = r.baseCurrency → r.isExpired now = true →
        r.apply ops now m = Except.error .expiredRate) ∧
      (m.currency = r.baseCurrency → r.isExpired now = false →
        r.apply ops now m =
          Except.ok ⟨ops.mul m.amount r.factor, r.targetCurrency, MonetaryContext.default⟩)) ∧
    (∀ (T : Type) (r : ExchangeRate T) (now : Nat), r.ttl = none → r.isExpired now = false) := by
  constructor
  · intro T ops r m now
    refine ⟨fun hne => ?_, fun heq hexp => ?_, fun heq hfresh => ?_⟩
    · unfold ExchangeRate.apply
      rw [if_pos hne]
    · unfold ExchangeRate.apply
      rw [if_neg (by simp [heq]), if_pos hexp]
    · unfold ExchangeRate.apply Monetary.new
      rw [if_neg (by simp [heq]), if_neg (by simp [hfresh])]
  · intro T r now httl
    unfold ExchangeRate.isExpired
    rw [httl]

/-- Witness for C2: an unexpired no-TTL rate applied to a matching-currency
amount, with every hypothesis discharged concretely. -/
theorem c2_exchange_rate_apply_witness :
    ExchangeRate.apply bigDecimalOps
      ⟨Currency.usd, Currency.eur, ⟨85, 2⟩, 0, none, MonetaryContext.default⟩ 7
      ⟨⟨10000, 2⟩, Currency.usd, MonetaryContext.default⟩ =
      Except.ok ⟨BigDecimal.mulOp ⟨10000, 2⟩ ⟨85, 2⟩, Currency.eur, MonetaryContext.default⟩ :=
  (c2_exchange_rate_apply.1 BigDecimal bigDecimalOps
      ⟨Currency.usd, Currency.eur, ⟨85, 2⟩, 0, none, MonetaryContext.default⟩
      ⟨⟨10000, 2⟩, Currency.usd, MonetaryContext.default⟩ 7).2.2 (by decide) (by decide)

/-- C2 counterexample: the claim says the result's context is preserved from
the input monetary; on an input carrying the currency-precision context the
code returns the default context instead. -/
theorem c2_counterexample_context_not_preserved :
    ExchangeRate.apply bigDecimalOps
      ⟨Currency.usd, Currency.eur, ⟨85, 2⟩, 0, none, MonetaryContext.default⟩ 0
      ⟨⟨10000, 2⟩, Currency.usd, MonetaryContext.currencyPrecision⟩ =
      Except.ok ⟨⟨8500000000, 8⟩, Currency.eur, MonetaryContext.default⟩ ∧
    MonetaryContext.default ≠ MonetaryContext.currencyPrecision := by
  exact ⟨by rfl, by decide⟩

theorem tryProviders_eq_firstRate {T : Type} (ops : MonetizableOps T)
    (provs : List (Currency → Currency → Option (ExchangeRate T))) (m : Monetary T)
    (target : Currency) (pair : CurrencyPair) (now : Nat)
    (cache : List (CurrencyPair × ExchangeRate T)) :
    tryProviders ops provs m target pair now cache =
      match firstProviderRate provs m.currency target with
      | none => (Except.error .noRateFound, cache)
      | some rate =>
          (rate.apply ops now m,
            match rate.apply ops now m with
            | Except.ok _ => insertRate cache pair rate
            | Except.error _ => cache) := by
  induction provs with
  | nil => rfl
  | cons prov rest ih =>
      unfold tryProviders firstProviderRate
      cases hp : prov m.currency target with
      | some rate => rfl
      | none => exact ih

/-- C3: `convert` clones the amount when source and target share a numeric
currency code; otherwise, with no fresh cache entry for the pair, it queries
the providers in list order, applies the first rate returned (so with two
providers holding a rate, the first provider's rate is used), caches that rate
keyed by the currency pair exactly when the application succeeds, and reports
`NoRateFound` when neither cache nor any provider yields a rate. -/
theorem c3_convert_provider_order_and_cache :
    (∀ (T : Type) (ops : MonetizableOps T) (svc : CurrencyConversion T) (m : Monetary T)
      (target : Currency) (now : Nat),
      m.currency.numericCode = target.numericCode →
      CurrencyConversion.convert ops svc m target now = (Except.ok m, svc.rateCache)) ∧
    (∀ (T : Type) (ops : MonetizableOps T) (svc : CurrencyConversion T) (m : Monetary T)
      (target : Currency) (now : Nat),
      m.currency.numericCode ≠ target.numericCode →
      (∀ r, lookupRate svc.rateCache (CurrencyPair.new m.currency target) = some r →
        r.isExpired now = true) →
      CurrencyConversion.convert ops svc m target now =
        match firstProviderRate svc.providers m.currency target with
        | none => (Except.error .noRateFound, svc.rateCache)
        | some rate =>
            (rate.apply ops now m,
              match rate.apply ops now m with
              | Except.ok _ => insertRate svc.rateCache (CurrencyPair.new m.currency target) rate
              | Except.error _ => svc.rateCache)) ∧
    (∀ (T : Type) (ops : MonetizableOps T)
      (p1 p2 : Currency → Currency → Option (ExchangeRate T))
      (cache : List (CurrencyPair × ExchangeRate T)) (ctx : MonetaryContext)
      (m : Monetary T) (target : Currency) (now : Nat) (r1 : ExchangeRate T),
      m.currency.numericCode ≠ target.numericCode →
      (∀ r, lookupRate cache (CurrencyPair.new m.currency target) = some r →
        r.isExpired now = true) →
      p1 m.currency target = some r1 →
      (CurrencyConversion.convert ops ⟨[p1, p2], cache, ctx⟩ m target now).1 =
        r1.apply ops now m) ∧
    (∀ (T : Type) (ops : MonetizableOps T) (svc : CurrencyConversion T) (m : Monetary T)
      (target : Currency) (now : Nat),
      m.currency.numericCode ≠ target.numericCode →
      (∀ r, lookupRate svc.rateCache (CurrencyPair.new m.currency target) = some r →
        r.isExpired now = true) →
      firstProviderRate svc.providers m.currency target = none →
      CurrencyConversion.convert ops svc m target now =
        (Except.error .noRateFound, svc.rateCache)) := by
  have hb : ∀ (T : Type) (ops : MonetizableOps T) (svc : CurrencyConversion T) (m : Monetary T)
      (target : Currency) (now : Nat),
      m.currency.numericCode ≠ target.numericCode →
      (∀ r, lookupRate svc.rateCache (CurrencyPair.new m.currency target) = some r →
        r.isExpired now = true) →
      CurrencyConversion.convert ops svc m target now =
        match firstProviderRate svc.providers m.currency target with
        | none => (Except.error .noRateFound, svc.rateCache)
        | some rate =>
            (rate.apply ops now m,
              match rate.apply ops now m with
              | Except.ok _ => insertRate svc.rateCache (CurrencyPair.new m.currency target) rate
              | Except.error _ => svc.rateCache) := by
    intro T ops svc m target now hne hmiss
    unfold CurrencyConversion.convert
    rw [if_neg hne]
    cases hl : lookupRate svc.rateCache (CurrencyPair.new m.currency target) with
    | some rate =>
        have hexp := hmiss rate hl
        simp only [hl]
        rw [if_neg (by simp [hexp])]
        exact tryProviders_eq_firstRate ops svc.providers m target _ now svc.rateCache
    | none =>
        simp only [hl]
        exact tryProviders_eq_firstRate ops svc.providers m target _ now svc.rateCache
  refine ⟨?_, hb, ?_, ?_⟩
  · intro T ops svc m target now heq
    unfold CurrencyConversion.convert
    rw [if_pos heq]
  · intro T ops p1 p2 cache ctx m target now r1 hne hmiss hp1
    rw [hb T ops ⟨[p1, p2], cache, ctx⟩ m target now hne hmiss]
    simp only [firstProviderRate, hp1]
  · intro T ops svc m target now hne hmiss hnone
    rw [hb T ops svc m target now hne hmiss, hnone]

/-- Witness for C3: the same-numeric-code fast path on a concrete service. -/
theorem c3_convert_provider_order_and_cache_witness :
    CurrencyConversion.convert bigDecimalOps
      ⟨[], [], MonetaryContext.default⟩
      ⟨⟨10000, 2⟩, Currency.usd, MonetaryContext.default⟩ Currency.usd 0 =
      (Except.ok ⟨⟨10000, 2⟩, Currency.usd, MonetaryContext.default⟩, []) :=
  c3_convert_provider_order_and_cache.1 BigDecimal bigDecimalOps
    ⟨[], [], MonetaryContext.default⟩
    ⟨⟨10000, 2⟩, Currency.usd, MonetaryContext.default⟩ Currency.usd 0 (by decide)

/-- C4: `safe_add` / `safe_subtract` fail with `CurrencyMismatch` exactly when
the operands' currencies differ by full descriptor — in particular
100.00 USD + 85.00 EUR — and otherwise return the sum/difference of the
amounts in `T` with the left operand's currency and context; the `BigDecimal`
addition/subtraction used by `+`/`-` are exact on denoted values, so no
rounding is applied. -/
theorem c4_safe_add_subtract_currency_guard :
    (∀ (T : Type) (ops : MonetizableOps T) (x y : Monetary T),
      x.currency ≠ y.currency →
      Monetary.safeAdd ops x y = Except.error (.currencyMismatch x.currency y.currency) ∧
      Monetary.safeSubtract ops x y =
        Except.error (.currencyMismatch x.currency y.currency)) ∧
    (∀ (T : Type) (ops : MonetizableOps T) (x y : Monetary T),
      x.currency = y.currency →
      Monetary.safeAdd ops x y =
        Except.ok ⟨ops.add x.amount y.amount, x.currency, x.context⟩ ∧
      Monetary.safeSubtract ops x y =
        Except.ok ⟨ops.sub x.amount y.amount, x.currency, x.context⟩) ∧
    (∀ a b : BigDecimal, (BigDecimal.addOp a b).toRat = a.toRat + b.toRat ∧
      (BigDecimal.subOp a b).toRat = a.toRat - b.toRat) ∧
    Monetary.safeAdd bigDecimalOps ⟨⟨10000, 2⟩, Currency.usd, MonetaryContext.default⟩
      ⟨⟨8500, 2⟩, Currency.eur, MonetaryContext.default⟩ =
      Except.error (.currencyMismatch Currency.usd Currency.eur) := by
  refine ⟨?_, ?_, ?_, by rfl⟩
  · intro T ops x y hne
    constructor
    · unfold Monetary.safeAdd
      rw [if_pos hne]
    · unfold Monetary.safeSubtract
      rw [if_pos hne]
  · intro T ops x y heq
    constructor
    · unfold Monetary.safeAdd
      rw [if_neg (by simp [heq])]
    · unfold Monetary.safeSubtract
      rw [if_neg (by simp [heq])]
  · intro a b
    exact ⟨BigDecimal.add_toRat a b .halfEven, BigDecimal.subtract_toRat a b .halfEven⟩

/-- Witness for C4: same-currency addition of two concrete USD amounts. -/
theorem c4_safe_add_subtract_currency_guard_witness :
    Monetary.safeAdd bigDecimalOps ⟨⟨10000, 2⟩, Currency.usd, MonetaryContext.default⟩
      ⟨⟨5000, 2⟩, Currency.usd, MonetaryContext.default⟩ =
      Except.ok ⟨BigDecimal.addOp ⟨10000, 2⟩ ⟨5000, 2⟩, Currency.usd,
        MonetaryContext.default⟩ :=
  ((c4_safe_add_subtract_currency_guard.2.1 BigDecimal bigDecimalOps
    ⟨⟨10000, 2⟩, Currency.usd, MonetaryContext.default⟩
    ⟨⟨5000, 2⟩, Currency.usd, MonetaryContext.default⟩) (by decide)).1

/-- C5 (amended): `apply_percentage` multiplies the amount by
`1 + p/100` converted to `T` (propagating a conversion failure), then applies
`apply_context`; for the fixed-point decimal backing that rounds the product
to the context's max scale with the context's rounding mode, while for the
float backing `apply_precision` hits the catch-all arm and returns the amount
unchanged — no rounding. `percentage_of` does the same with multiplier
`p/100`. -/
theorem c5_percentage_context_rounding :
    (∀ (conv : ℚ → Except MoneyError BigDecimal) (m : Monetary BigDecimal) (p : ℚ)
      (w : BigDecimal), conv (1 + p / 100) = Except.ok w →
      Monetary.applyPercentage bigDecimalOps conv m p =
        (MonetaryContext.roundBigdecimal m.context (BigDecimal.mulOp m.amount w)).map
          (fun a => Except.ok ⟨a, m.currency, m.context⟩)) ∧
    (∀ (conv : ℚ → Except MoneyError BigDecimal) (m : Monetary BigDecimal) (p : ℚ)
      (e : MoneyError), conv (1 + p / 100) = Except.error e →
      Monetary.applyPercentage bigDecimalOps conv m p = some (Except.error e)) ∧
    (∀ (conv : ℚ → Except MoneyError BigDecimal) (m : Monetary BigDecimal) (p : ℚ)
      (w : BigDecimal), conv (p / 100) = Except.ok w →
      Monetary.percentageOf bigDecimalOps conv m p =
        (MonetaryContext.roundBigdecimal m.context (BigDecimal.mulOp m.amount w)).map
          (fun a => Except.ok ⟨a, m.currency, m.context⟩)) ∧
    (∀ (conv : ℚ → Except MoneyError ℚ) (m : Monetary ℚ) (p : ℚ) (w : ℚ),
      conv (1 + p / 100) = Except.ok w →
      Monetary.applyPercentage floatOps conv m p =
        some (Except.ok ⟨m.amount * w, m.currency, m.context⟩)) ∧
    (∀ (conv : ℚ → Except MoneyError ℚ) (m : Monetary ℚ) (p : ℚ) (w : ℚ),
      conv (p / 100) = Except.ok w →
      Monetary.percentageOf floatOps conv m p =
        some (Except.ok ⟨m.amount * w, m.currency, m.context⟩)) := by
  refine ⟨?_, ?_, ?_, ?_, ?_⟩
  · intro conv m p w hconv
    unfold Monetary.applyPercentage
    rw [hconv]
    unfold Monetary.applyContext Monetary.multiplyBy
    cases h : MonetaryContext.roundBigdecimal m.context (BigDecimal.mulOp m.amount w) with
    | none => simp [bigDecimalOps, h]
    | some v => simp [bigDecimalOps, h]
  · intro conv m p e hconv
    unfold Monetary.applyPercentage
    rw [hconv]
  · intro conv m p w hconv
    unfold Monetary.percentageOf
    rw [hconv]
    unfold Monetary.applyContext Monetary.multiplyBy
    cases h : MonetaryContext.roundBigdecimal m.context (BigDecimal.mulOp m.amount w) with
    | none => simp [bigDecimalOps, h]
    | some v => simp [bigDecimalOps, h]
  · intro conv m p w hconv
    unfold Monetary.applyPercentage
    rw [hconv]
    unfold Monetary.applyContext Monetary.multiplyBy
    simp [floatOps]
  · intro conv m p w hconv
    unfold Monetary.percentageOf
    rw [hconv]
    unfold Monetary.applyContext Monetary.multiplyBy
    simp [floatOps]

/-- Witness for C5: the BigDecimal arm at a concrete conversion: multiplier
1.2 for a 20 percent increase of 100.00 under the default context. -/
theorem c5_percentage_context_rounding_witness :
    Monetary.applyPercentage bigDecimalOps (fun _ => Except.ok ⟨12, 1⟩)
      ⟨⟨10000, 2⟩, Currency.usd, MonetaryContext.default⟩ 20 =
      (MonetaryContext.roundBigdecimal MonetaryContext.default
        (BigDecimal.mulOp ⟨10000, 2⟩ ⟨12, 1⟩)).map
        (fun a => Except.ok ⟨a, Currency.usd, MonetaryContext.default⟩) :=
  c5_percentage_context_rounding.1 (fun _ => Except.ok ⟨12, 1⟩)
    ⟨⟨10000, 2⟩, Currency.usd, MonetaryContext.default⟩ 20 ⟨12, 1⟩ rfl

/-- C5 counterexample: with the `f64` backing (0.125 USD, currency-precision
context with max scale 2), `apply_percentage(0.0)` — every f64 step of which
is exact — returns the amount 0.125 unchanged, a value not expressible at
scale 2, so the result is not rounded to the context's max scale as the claim
asserts for every backing type. -/
theorem c5_counterexample_no_rounding_for_float_backing :
    Monetary.applyPercentage floatOps (fun v => Except.ok v)
      ⟨1 / 8, Currency.usd, MonetaryContext.currencyPrecision⟩ 0 =
      some (Except.ok ⟨1 / 8, Currency.usd, MonetaryContext.currencyPrecision⟩) ∧
    ¬ ∃ k : Int, (1 / 8 : ℚ) = (k : ℚ) / 100 := by
  constructor
  · have hmul : (1 / 8 : ℚ) * (1 + 0 / 100) = 1 / 8 := by norm_num
    unfold Monetary.applyPercentage Monetary.applyContext Monetary.multiplyBy
    simp [floatOps, hmul]
  · rintro ⟨k, hk⟩
    have h2 : (100 : ℚ) = 8 * k := by
      field_simp at hk
      linarith
    have h3 : (100 : ℤ) = 8 * k := by exact_mod_cast h2
    omega

/-- C6 (amended): `divide_by` divides the amount by the scalar through `T`'s
`Div` with no context rounding; `BigDecimal::divide` itself reports the
division-by-zero error, but the `Div` operator impl that `divide_by` uses maps
that error to zero (`unwrap_or_else(|_| BigDecimal::zero())`), so a zero
scalar produces a zero amount rather than a reported error. -/
theorem c6_divide_by_division_semantics :
    (∀ (T : Type) (ops : MonetizableOps T) (m : Monetary T) (scalar : T),
      Monetary.divideBy ops m scalar = ⟨ops.div m.amount scalar, m.currency, m.context⟩) ∧
    (∀ (x y : BigDecimal) (mode : RoundingMode) (targetScale : Int),
      y.unscaledValue = 0 →
      BigDecimal.divide x y mode targetScale = some (Except.error "Division by zero")) ∧
    (∀ x y : BigDecimal, y.unscaledValue = 0 → BigDecimal.divOp x y = BigDecimal.zero) := by
  have hdiv : ∀ (x y : BigDecimal) (mode : RoundingMode) (targetScale : Int),
      y.unscaledValue = 0 →
      BigDecimal.divide x y mode targetScale = some (Except.error "Division by zero") := by
    intro x y mode targetScale h0
    unfold BigDecimal.divide
    rw [if_pos h0]
  refine ⟨fun T ops m scalar => rfl, hdiv, ?_⟩
  intro x y h0
  unfold BigDecimal.divOp
  rw [hdiv x y .halfEven 8 h0]

/-- Witness for C6: the `Div` operator at a concrete zero divisor. -/
theorem c6_divide_by_division_semantics_witness :
    BigDecimal.divOp ⟨10000, 2⟩ ⟨0, 0⟩ = BigDecimal.zero :=
  c6_divide_by_division_semantics.2.2 ⟨10000, 2⟩ ⟨0, 0⟩ rfl

/-- C6 counterexample: dividing 100.00 USD by the zero decimal does not report
`DivisionByZero` as the claim says: `divide_by` returns a zero amount, even
though the underlying `BigDecimal::divide` does produce the error. -/
theorem c6_counterexample_zero_divisor_swallowed :
    Monetary.divideBy bigDecimalOps ⟨⟨10000, 2⟩, Currency.usd, MonetaryContext.default⟩
      ⟨0, 0⟩ = ⟨BigDecimal.zero, Currency.usd, MonetaryContext.default⟩ ∧
    BigDecimal.divide ⟨10000, 2⟩ ⟨0, 0⟩ .halfEven 8 =
      some (Except.error "Division by zero") := ⟨by rfl, by rfl⟩

theorem BigDecimal.zero_toRat : BigDecimal.zero.toRat = 0 := by
  unfold BigDecimal.zero BigDecimal.toRat
  norm_num

/-- The derived `PartialEq` of `Monetary<BigDecimal>` (mod.rs 462): fieldwise
comparison, using `BigDecimal`'s value equality on the amount. -/
def Monetary.eqBD (x y : Monetary BigDecimal) : Prop :=
  x.amount.beq y.amount = true ∧ x.currency = y.currency ∧ x.context = y.context

/-- C9 (amended): for every monetary `x` of currency `c` over the fixed-point
decimal backing, `x + zero(c)` equals `x` under the monetary's own equality;
`zero(c) + x` equals `x` exactly under the extra assumption that `x` carries
the default context, because addition keeps the left operand's context and
`zero(c)` is built with the default context. -/
theorem c9_zero_add_identity :
    ∀ (x : Monetary BigDecimal) (c : Currency), x.currency = c →
      (∃ y, Monetary.safeAdd bigDecimalOps x (Monetary.zeroM bigDecimalOps c) = Except.ok y ∧
        Monetary.eqBD y x) ∧
      (x.context = MonetaryContext.default →
        ∃ y, Monetary.safeAdd bigDecimalOps (Monetary.zeroM bigDecimalOps c) x = Except.ok y ∧
          Monetary.eqBD y x) := by
  intro x c hc
  constructor
  · refine ⟨⟨BigDecimal.addOp x.amount BigDecimal.zero, x.currency, x.context⟩, ?_, ?_, rfl, rfl⟩
    · unfold Monetary.safeAdd Monetary.zeroM Monetary.new
      rw [if_neg (by simp [hc])]
      rfl
    · rw [BigDecimal.beq_eq_true_iff]
      unfold BigDecimal.addOp
      rw [BigDecimal.add_toRat, BigDecimal.zero_toRat, add_zero]
  · intro hctx
    refine ⟨⟨BigDecimal.addOp BigDecimal.zero x.amount, c, MonetaryContext.default⟩, ?_, ?_,
      hc.symm, hctx.symm⟩
    · unfold Monetary.safeAdd Monetary.zeroM Monetary.new
      rw [if_neg (by simp [hc])]
      rfl
    · rw [BigDecimal.beq_eq_true_iff]
      unfold BigDecimal.addOp
      rw [BigDecimal.add_toRat, BigDecimal.zero_toRat, zero_add]

/-- Witness for C9: both identities at a concrete 100.00 USD with the default
context. -/
theorem c9_zero_add_identity_witness :
    ∃ y, Monetary.safeAdd bigDecimalOps (Monetary.zeroM bigDecimalOps Currency.usd)
      ⟨⟨10000, 2⟩, Currency.usd, MonetaryContext.default⟩ = Except.ok y ∧
      Monetary.eqBD y ⟨⟨10000, 2⟩, Currency.usd, MonetaryContext.default⟩ :=
  (c9_zero_add_identity ⟨⟨10000, 2⟩, Currency.usd, MonetaryContext.default⟩ Currency.usd
    rfl).2 rfl

/-- C9 counterexample: with `x` carrying the currency-precision context,
`zero(USD) + x` comes back with the default context (the left operand's), so
it is not equal to `x` under the monetary's own (derived) equality, which
compares contexts. -/
theorem c9_counterexample_left_identity_needs_default_context :
    Monetary.safeAdd bigDecimalOps (Monetary.zeroM bigDecimalOps Currency.usd)
      ⟨⟨10000, 2⟩, Currency.usd, MonetaryContext.currencyPrecision⟩ =
      Except.ok ⟨⟨10000, 2⟩, Currency.usd, MonetaryContext.default⟩ ∧
    ¬ Monetary.eqBD ⟨⟨10000, 2⟩, Currency.usd, MonetaryContext.default⟩
      ⟨⟨10000, 2⟩, Currency.usd, MonetaryContext.currencyPrecision⟩ := by
  refine ⟨by rfl, fun h => absurd h.2.2 (by decide)⟩

/-- `f64::EPSILON`, which is exactly `2^-52`. -/
def f64Epsilon : ℚ := 1 / 2 ^ 52

/-- The enum `Money` from `src/core/money.rs`: 55 variants, each carrying an
`f64` amount in major units. The variant tag is modeled by its currency-code
string and the payload by the rational number the f64 denotes; the three sign
predicates below only compare the payload against `f64::EPSILON`, and f64
comparisons are exact comparisons of denoted values, so the rational model is
faithful for them. -/
structure Money where
  currencyCode : String
  amount : ℚ
deriving DecidableEq, Repr

/-- `Money::is_zero` (money.rs 259-261): `self.amount().abs() < f64::EPSILON`. -/
def Money.isZero (m : Money) : Bool := decide (|m.amount| < f64Epsilon)

/-- `Money::is_positive` (money.rs 264-266): `self.amount() > f64::EPSILON`. -/
def Money.isPositive (m : Money) : Bool := decide (f64Epsilon < m.amount)

/-- `Money::is_negative` (money.rs 269-271): `self.amount() < -f64::EPSILON`. -/
def Money.isNegative (m : Money) : Bool := decide (m.amount < -f64Epsilon)

/-- C10: the enum-based `Money` sign predicates use an epsilon tolerance:
`is_zero` holds exactly when `|amount| < f64::EPSILON`, `is_positive` exactly
when `amount > f64::EPSILON`, `is_negative` exactly when
`amount < -f64::EPSILON`; consequently a small non-zero amount (for example
`2^-53`) is classified as zero, and at an amount exactly `f64::EPSILON` all
three predicates are false. -/
theorem c10_money_epsilon_predicates :
    (∀ m : Money, (m.isZero = true ↔ |m.amount| < f64Epsilon) ∧
      (m.isPositive = true ↔ f64Epsilon < m.amount) ∧
      (m.isNegative = true ↔ m.amount < -f64Epsilon)) ∧
    (∀ m : Money, m.amount ≠ 0 → |m.amount| < f64Epsilon →
      m.isZero = true ∧ m.isPositive = false ∧ m.isNegative = false) ∧
    ((Money.mk "USD" (1 / 2 ^ 53)).isZero = true ∧ (1 / 2 ^ 53 : ℚ) ≠ 0) ∧
    (∀ m : Money, m.amount = f64Epsilon →
      m.isZero = false ∧ m.isPositive = false ∧ m.isNegative = false) := by
  have heps : (0 : ℚ) < f64Epsilon := by
    unfold f64Epsilon
    positivity
  have hsmall : |(1 / 2 ^ 53 : ℚ)| < f64Epsilon := by
    rw [abs_of_pos (by positivity)]
    unfold f64Epsilon
    norm_num
  refine ⟨?_, ?_, ⟨by simp only [Money.isZero, decide_eq_true_eq]; simpa using hsmall, by norm_num⟩, ?_⟩
  · intro m
    refine ⟨?_, ?_, ?_⟩ <;>
      simp [Money.isZero, Money.isPositive, Money.isNegative]
  · intro m hne habs
    have hb := abs_lt.mp habs
    refine ⟨?_, ?_, ?_⟩
    · simp [Money.isZero, habs]
    · simp only [Money.isPositive, decide_eq_false_iff_not, not_lt]
      linarith [hb.2]
    · simp only [Money.isNegative, decide_eq_false_iff_not, not_lt]
      linarith [hb.1]
  · intro m heq
    refine ⟨?_, ?_, ?_⟩
    · simp only [Money.isZero, decide_eq_false_iff_not, not_lt, heq]
      rw [abs_of_pos heps]
    · simp only [Money.isPositive, decide_eq_false_iff_not, not_lt, heq]
      exact le_rfl
    · simp only [Money.isNegative, decide_eq_false_iff_not, not_lt, heq]
      linarith

/-- Witness for C10: all three predicates are false at exactly
`f64::EPSILON`. -/
theorem c10_money_epsilon_predicates_witness :
    (Money.mk "USD" f64Epsilon).isZero = false ∧
    (Money.mk "USD" f64Epsilon).isPositive = false ∧
    (Money.mk "USD" f64Epsilon).isNegative = false :=
  c10_money_epsilon_predicates.2.2.2 (Money.mk "USD" f64Epsilon) rfl

/-- Leading-whitespace removal on a character list. Together with
`trimChars` this models Rust's `str::trim`; `Char.isWhitespace` covers the
ASCII whitespace (space, tab, CR, LF) exercised by the theorems below. -/
def trimLeftChars : List Char → List Char
  | [] => []
  | c :: cs => if c.isWhitespace then trimLeftChars cs else c :: cs

/-- `str::trim`: strip whitespace from both ends. -/
def trimChars (l : List Char) : List Char :=
  (trimLeftChars (trimLeftChars l).reverse).reverse

/-- Rust's `split('.')` collected into a vector: split a character list on
every dot, keeping empty segments. -/
def splitOnDot : List Char → List (List Char)
  | [] => [[]]
  | c :: cs =>
      if c = '.' then [] :: splitOnDot cs
      else
        match splitOnDot cs with
        | [] => [[c]]
        | p :: ps => (c :: p) :: ps

/-- Accumulate a decimal digit string; `none` on any non-digit. -/
def digitsValAux : Nat → List Char → Option Nat
  | acc, [] => some acc
  | acc, c :: cs => if c.isDigit then digitsValAux (acc * 10 + (c.toNat - 48)) cs else none

/-- Largest `i128` value. -/
def i128Max : Int := 2 ^ 127 - 1

/-- Smallest `i128` value. -/
def i128Min : Int := -(2 ^ 127)

/-- `i128::from_str` as used by the decimal parser: an optional leading `+` or
`-`, then at least one ASCII digit, with the `i128` range check; anything else
is a parse error (`none`). -/
def parseI128 (l : List Char) : Option Int :=
  match l with
  | [] => none
  | '+' :: rest =>
      match rest, digitsValAux 0 rest with
      | _ :: _, some n => if (n : Int) ≤ i128Max then some (n : Int) else none
      | _, _ => none
  | '-' :: rest =>
      match rest, digitsValAux 0 rest with
      | _ :: _, some n => if i128Min ≤ -(n : Int) then some (-(n : Int)) else none
      | _, _ => none
  | _ =>
      match digitsValAux 0 l with
      | some n => if (n : Int) ≤ i128Max then some (n : Int) else none
      | none => none

/-- The per-shape body of `impl FromStr for BigDecimal` (types.rs 309-371),
after the input has been trimmed (`t`) and split on dots (`parts`): one part
parses as a plain integer at scale 0; two parts give scale = fraction length,
with the `"0"` / `"-0"` integer-part special case keyed off
`s.starts_with('-')`; any other number of parts is an error. -/
def fromStrParts (t : List Char) : List (List Char) → Except String BigDecimal
  | [intPart] =>
      match parseI128 intPart with
      | some v => Except.ok ⟨v, 0⟩
      | none => Except.error "Invalid number format"
  | [intPart, fracPart] =>
      if fracPart = [] then Except.error "Empty fraction part"
      else
        match parseI128 fracPart with
        | none => Except.error "Invalid fraction part"
        | some fracValue =>
            if intPart = ['0'] ∨ intPart = ['-', '0'] then
              Except.ok ⟨if (match t with | '-' :: _ => true | _ => false) then
                  -fracValue else fracValue, (fracPart.length : Int)⟩
            else
              match parseI128 intPart with
              | none => Except.error "Invalid integer part"
              | some intValue =>
                  Except.ok ⟨if intValue < 0 then
                      intValue * 10 ^ fracPart.length - fracValue
                    else intValue * 10 ^ fracPart.length + fracValue,
                    (fracPart.length : Int)⟩
  | _ => Except.error "Invalid number format"

/-- `impl FromStr for BigDecimal` (types.rs 309-371): trim, reject empty
input, split on dots, then dispatch on the number of parts. -/
def BigDecimal.fromStr (s : String) : Except String BigDecimal :=
  if trimChars s.data = [] then Except.error "Empty string"
  else fromStrParts (trimChars s.data) (splitOnDot (trimChars s.data))

theorem fromStrParts_scale (t intPart fracPart : List Char) (d : BigDecimal)
    (hd : fromStrParts t [intPart, fracPart] = Except.ok d) :
    d.scale = (fracPart.length : Int) := by
  simp only [fromStrParts] at hd
  by_cases hf : fracPart = []
  · rw [if_pos hf] at hd
    cases hd
  · rw [if_neg hf] at hd
    cases hp : parseI128 fracPart with
    | none => simp only [hp] at hd; cases hd
    | some fracValue =>
        simp only [hp] at hd
        by_cases hi : intPart = ['0'] ∨ intPart = ['-', '0']
        · rw [if_pos hi] at hd
          cases hd
          rfl
        · rw [if_neg hi] at hd
          cases hpi : parseI128 intPart with
          | none => simp only [hpi] at hd; cases hd
          | some intValue =>
              simp only [hpi] at hd
              cases hd
              rfl

theorem fromStrParts_many (t a b c : List Char) (rest : List (List Char)) :
    fromStrParts t (a :: b :: c :: rest) = Except.error "Invalid number format" := rfl

/-- C8 (amended): parsing trims surrounding whitespace and splits on dots;
one part parses as a signed 128-bit integer at scale 0, two parts yield scale
equal to the fractional part's length, and empty input, more than one dot, or
a part that is not a valid signed integer all fail — but each part goes
through `i128::from_str`, so a leading `+`, a sign inside the fraction part,
and surrounding whitespace are accepted, not rejected: not every non-digit
character outside a leading `-` and the dot makes parsing fail. -/
theorem c8_from_str_shape :
    (∀ s : String, 2 < (splitOnDot (trimChars s.data)).length →
      BigDecimal.fromStr s = Except.error "Invalid number format") ∧
    (∀ (s : String) (i f : List Char), splitOnDot (trimChars s.data) = [i, f] →
      ∀ d, BigDecimal.fromStr s = Except.ok d → d.scale = (f.length : Int)) ∧
    BigDecimal.fromStr "" = Except.error "Empty string" ∧
    BigDecimal.fromStr "   " = Except.error "Empty string" ∧
    BigDecimal.fromStr "-123.45" = Except.ok ⟨-12345, 2⟩ ∧
    BigDecimal.fromStr "123" = Except.ok ⟨123, 0⟩ ∧
    BigDecimal.fromStr "0.001" = Except.ok ⟨1, 3⟩ ∧
    BigDecimal.fromStr "-0.001" = Except.ok ⟨-1, 3⟩ ∧
    BigDecimal.fromStr "abc" = Except.error "Invalid number format" ∧
    BigDecimal.fromStr "1.2.3" = Except.error "Invalid number format" ∧
    BigDecimal.fromStr "+1" = Except.ok ⟨1, 0⟩ ∧
    BigDecimal.fromStr " 1 " = Except.ok ⟨1, 0⟩ ∧
    BigDecimal.fromStr "1.-2" = Except.ok ⟨98, 2⟩ := by
  refine ⟨?_, ?_, by rfl, by rfl, by rfl, by rfl, by rfl, by rfl, by rfl, by rfl, by rfl,
    by rfl, by rfl⟩
  · intro s h
    have ht : trimChars s.data ≠ [] := by
      intro he
      rw [he] at h
      simp [splitOnDot] at h
    obtain ⟨a, b, c, rest, hsp⟩ :
        ∃ a b c rest, splitOnDot (trimChars s.data) = a :: b :: c :: rest := by
      rcases hL : splitOnDot (trimChars s.data) with _ | ⟨a, _ | ⟨b, _ | ⟨c, r⟩⟩⟩
      · rw [hL] at h; simp at h
      · rw [hL] at h; simp at h
      · rw [hL] at h; simp at h
      · exact ⟨a, b, c, r, rfl⟩
    unfold BigDecimal.fromStr
    rw [if_neg ht, hsp]
    exact fromStrParts_many _ a b c rest
  · intro s i f hsp d hd
    have ht : trimChars s.data ≠ [] := by
      intro he
      rw [he] at hsp
      simp [splitOnDot] at hsp
    unfold BigDecimal.fromStr at hd
    rw [if_neg ht, hsp] at hd
    exact fromStrParts_scale _ i f d hd

/-- Witness for C8: the scale clause applied to the concrete input "12.34". -/
theorem c8_from_str_shape_witness :
    (⟨1234, 2⟩ : BigDecimal).scale = ((['3', '4'] : List Char).length : Int) :=
  c8_from_str_shape.2.1 "12.34" ['1', '2'] ['3', '4'] (by rfl) ⟨1234, 2⟩ (by rfl)

/-- C8 counterexample: `"+1"` contains a non-digit character that is neither a
leading `-` nor a dot, so per the claim it must fail to parse; the code
accepts it (the integer part goes through `i128::from_str`, which allows a
leading `+`). -/
theorem c8_counterexample_plus_sign_accepted :
    BigDecimal.fromStr "+1" = Except.ok ⟨1, 0⟩ := by rfl
